import Mathlib

/-!
# Verification of the midiphone per-frame audio-to-MIDI pipeline

This file is a shallow embedding of `src/midiphone/__main__.py`
(`MicrophoneToMidiThread` and the pitch-mapping helpers), together with
theorems settling the specification claims about it.

Modelling conventions:

* Machine floats (`np.float64`) are modelled by `ℚ` for the per-frame
  pipeline (magnitudes, calibration bounds) and by `ℝ` for the
  transcendental pitch mapping (`np.log2`, `2 ** x`).
* `pyaudio_stream.read(PYAUDIO_CHUNK_SIZE)` returns a `bytes` object of
  `2 * PYAUDIO_CHUNK_SIZE` bytes (two bytes per `paInt16` mono sample).
  The source sets `N = len(audio_data)`, i.e. `N` is the *byte* length.
  We therefore model a frame by its magnitude spectrum
  `mags : List ℚ` (the external `scipy.fft.fft` followed by `np.abs` is
  one magnitude per sample, so `mags.length` = number of samples) and
  define `audio_byte_length mags = 2 * mags.length` for the source's `N`.
* `scipy.signal.find_peaks` with no keyword arguments returns the simple
  local maxima: indices `k` that lie on a plateau `x[i..j]` (constant
  value) with a strict rise before it (`x[i-1] < x[i]`) and a strict fall
  after it (`x[j] > x[j+1]`); the reported index is the plateau midpoint
  `(i + j) / 2` (floor).  Boundary samples are never peaks.
* Python `int(...)` on a float truncates toward zero (`pyTrunc`).
  When `maximum_magnitude == minimum_magnitude` the source divides a
  `np.float64` by `0.0`, yielding `inf`/`nan` (no exception at the
  division itself), and the enclosing `int(...)` raises
  `OverflowError`/`ValueError`.  We model that raise as an `Except.error`
  branch guarded by `maximum_magnitude - minimum_magnitude = 0`.
* Python `set` is modelled by a duplicate-free `List ℤ` (`notes_on`,
  `notes_seen`); observable statements about these are at `Finset` level.
* The frequency-to-note map `get_midi_note_for_frequency` is
  transcendental, so the frame pipeline takes the note map as an explicit
  argument `noteOf : ℚ → ℤ`; all frame/loop theorems hold for every
  `noteOf`, in particular for the real one (`pipeline_note_of`).
  `mido.Message` range validation never fires in the reachable range
  (bin frequencies lie in `[21.5 Hz, 22050 Hz)`, whose notes are ≥ 17,
  and notes above 127 are filtered by the source itself), so sending a
  message is modelled as a pure event emission.
* The `shelve` config persistence, logging, and the Tk callback body are
  external I/O; the calibration-change callback is modelled by the
  `Bool` that says whether it would have been invoked.
-/

namespace Midiphone

/-- `PYAUDIO_CHUNK_SIZE = 1024` (samples per frame). -/
def PYAUDIO_CHUNK_SIZE : ℕ := 1024

/-- `PYAUDIO_SAMPLE_RATE = 44100`. -/
def PYAUDIO_SAMPLE_RATE : ℚ := 44100

/-- `MAX_MAGNITUDE = 4_000_000` (default `maximum_magnitude`). -/
def MAX_MAGNITUDE : ℚ := 4000000

/-- `np.max` over a list (the source only applies it to the nonempty
magnitude spectrum; on `[]` `np.max` would raise, the `0` default is
unreachable). -/
def listMax : List ℚ → ℚ
  | [] => 0
  | a :: l => l.foldl max a

/-- Python `int(...)` applied to a float: truncation toward zero. -/
def pyTrunc (q : ℚ) : ℤ := if q < 0 then ⌈q⌉ else ⌊q⌋

/-- `scipy.fft.fftfreq(N, 1 / PYAUDIO_SAMPLE_RATE)[k]` for
`k < N / 2`: the bin frequency `k * PYAUDIO_SAMPLE_RATE / N`. -/
def fftfreq_pos (N : ℕ) (k : ℕ) : ℚ := k * PYAUDIO_SAMPLE_RATE / N

/-- `N = len(audio_data)`: the frame's byte length, two bytes per
`paInt16` sample, hence twice the number of magnitude bins. -/
def audio_byte_length (mags : List ℚ) : ℕ := 2 * mags.length

/-- `yf_positive_magnitude = yf_magnitude[:N // 2]` where `N` is the
byte length: since `N / 2 = mags.length` this keeps every bin. -/
def yf_positive_magnitude (mags : List ℚ) : List ℚ :=
  mags.take (audio_byte_length mags / 2)

/-- `xf_positive[k] = xf[:N // 2][k]` with `xf = fftfreq(N, 1/rate)`. -/
def xf_positive (mags : List ℚ) (k : ℕ) : ℚ :=
  fftfreq_pos (audio_byte_length mags) k

/-- One index of `scipy.signal.find_peaks(x)[0]` (no keyword
arguments): `k` is the floor midpoint of a maximal plateau that rises
strictly on its left and falls strictly on its right. -/
def isPlateauPeak (x : List ℚ) (k : ℕ) : Bool :=
  (List.range x.length).any fun i =>
    (List.range x.length).any fun j =>
      decide (1 ≤ i) && decide (i ≤ j) && decide (j + 1 < x.length) &&
      decide (k = (i + j) / 2) &&
      decide (x.getD (i - 1) 0 < x.getD i 0) &&
      decide (x.getD (j + 1) 0 < x.getD j 0) &&
      ((List.range (j - i + 1)).all fun t => x.getD (i + t) 0 == x.getD i 0)

/-- `scipy.signal.find_peaks(x)[0]`: the detected indices in increasing
order. -/
def find_peaks (x : List ℚ) : List ℕ :=
  (List.range x.length).filter (isPlateauPeak x)

/-- The clamped linear velocity interpolation of lines 176–182 of the
source (guarded by `maximum - minimum ≠ 0` at the call site, since the
source raises there):
`velocity = int(127 * (magnitude - min) / (max - min))` then clamp to
`[0, 127]`. -/
def velocity_of (minM maxM mag : ℚ) : ℤ :=
  let v := pyTrunc (127 * (mag - minM) / (maxM - minM))
  if v < 0 then 0 else if v > 127 then 127 else v

/-- The mutable state of `MicrophoneToMidiThread` that the per-frame
loop reads and writes (`config`/`shelve` persistence is external). -/
structure SessionState where
  minimum_magnitude : ℚ
  maximum_magnitude : ℚ
  should_listen_for_minimum_magnitude_frames : ℕ
  should_listen_for_maximum_magnitude_frames : ℕ
  keyboard_has_velocity : Bool
  velocity_threshold : ℤ
  notes_on : List ℤ
  deriving DecidableEq

/-- A MIDI message sent to the virtual device: the source sends
`Message("note_on", note=note, velocity=velocity)` and
`Message("note_off", note=note, velocity=0)`. -/
inductive MidiEvent where
  | noteOn : ℤ → ℤ → MidiEvent
  | noteOff : ℤ → ℤ → MidiEvent
  deriving DecidableEq

/-- Lines 139–156 of the source: the automatic sensitivity adjustment.
While a listen countdown is positive the corresponding bound is set to
`np.max(yf_positive_magnitude)` and the countdown is decremented; the
returned `Bool` says whether the change callback would fire (it fires
iff either bound differs from its value before the frame). -/
def calibrationStep (st : SessionState) (mags : List ℚ) : SessionState × Bool :=
  let minimum_magnitude_before := st.minimum_magnitude
  let maximum_magnitude_before := st.maximum_magnitude
  let st2 :=
    if st.should_listen_for_minimum_magnitude_frames > 0 then
      { st with minimum_magnitude := listMax mags,
                should_listen_for_minimum_magnitude_frames :=
                  st.should_listen_for_minimum_magnitude_frames - 1 }
    else st
  let st3 :=
    if st2.should_listen_for_maximum_magnitude_frames > 0 then
      { st2 with maximum_magnitude := listMax mags,
                 should_listen_for_maximum_magnitude_frames :=
                   st2.should_listen_for_maximum_magnitude_frames - 1 }
    else st2
  (st3, decide (st3.minimum_magnitude ≠ minimum_magnitude_before ∨
                st3.maximum_magnitude ≠ maximum_magnitude_before))

/-- The loop-carried state of the `for peak in peaks` loop of
`read_one_frame`: the session object, the MIDI messages sent so far in
this frame, and the local `notes_seen` set. -/
structure PeakLoopState where
  st : SessionState
  events : List MidiEvent
  notes_seen : List ℤ
  deriving DecidableEq

/-- Lines 162–199 of the source, one iteration of `for peak in peaks`.
An `Except.error` is the exception raised by `int(...)` on the
`inf`/`nan` quotient when `maximum_magnitude - minimum_magnitude = 0`
(it carries the persistent effects: the session object and the messages
already sent; the local `notes_seen` is lost). -/
def stepPeak (noteOf : ℚ → ℤ) (N : ℕ) (mags : List ℚ) (ls : PeakLoopState)
    (k : ℕ) : Except (SessionState × List MidiEvent) PeakLoopState :=
  let frequency := fftfreq_pos N k
  let magnitude := mags.getD k 0
  if magnitude < ls.st.minimum_magnitude then .ok ls
  else
    let note := noteOf frequency
    if note > 127 then .ok ls
    else if ls.st.maximum_magnitude - ls.st.minimum_magnitude = 0 then
      .error (ls.st, ls.events)
    else
      let velocity := velocity_of ls.st.minimum_magnitude ls.st.maximum_magnitude magnitude
      if ls.st.keyboard_has_velocity = false ∧ velocity < ls.st.velocity_threshold then .ok ls
      else
        let velocity := if ls.st.keyboard_has_velocity then velocity else 127
        let seen := if note ∈ ls.notes_seen then ls.notes_seen else ls.notes_seen ++ [note]
        if note ∈ ls.st.notes_on then .ok { ls with notes_seen := seen }
        else
          .ok { st := { ls.st with notes_on := ls.st.notes_on ++ [note] },
                events := ls.events ++ [.noteOn note velocity],
                notes_seen := seen }

/-- The whole `for peak in peaks` loop. -/
def foldPeaks (noteOf : ℚ → ℤ) (N : ℕ) (mags : List ℚ) :
    List ℕ → PeakLoopState → Except (SessionState × List MidiEvent) PeakLoopState
  | [], ls => .ok ls
  | k :: ks, ls =>
    match stepPeak noteOf N mags ls k with
    | .ok ls2 => foldPeaks noteOf N mags ks ls2
    | .error e => .error e

/-- Lines 201–206 of the source: `notes_off = notes_on - notes_seen`,
send a velocity-0 `note_off` for each, and remove each from
`notes_on`. -/
def notesOffPhase (st : SessionState) (events : List MidiEvent) (seen : List ℤ) :
    SessionState × List MidiEvent :=
  let notes_off := st.notes_on.filter (fun n => decide (n ∉ seen))
  ({ st with notes_on := st.notes_on.filter (fun n => decide (n ∈ seen)) },
   events ++ notes_off.map (fun n => .noteOff n 0))

/-- `MicrophoneToMidiThread.read_one_frame`, given the magnitude
spectrum of the captured frame (the external FFT's output) and the
frequency-to-note map.  The result carries the session state, the MIDI
messages sent, and whether the calibration callback fired; `.error` is
an uncaught exception escaping to `run` (with the same data, observed
at the point of the raise). -/
def read_one_frame (noteOf : ℚ → ℤ) (st0 : SessionState) (mags : List ℚ) :
    Except (SessionState × List MidiEvent × Bool) (SessionState × List MidiEvent × Bool) :=
  let N := audio_byte_length mags
  let yf_pos := yf_positive_magnitude mags
  let cal := calibrationStep st0 yf_pos
  let peaks := find_peaks yf_pos
  match foldPeaks noteOf N yf_pos peaks ⟨cal.1, [], []⟩ with
  | .error e => .error (e.1, e.2, cal.2)
  | .ok ls =>
    let fin := notesOffPhase ls.st ls.events ls.notes_seen
    .ok (fin.1, fin.2, cal.2)

/-- One iteration's input to `run`'s `while` loop: either
`pyaudio_stream.read` raises, or it yields a frame (identified with its
magnitude spectrum). -/
inductive FrameInput where
  | readError : FrameInput
  | frame : List ℚ → FrameInput

/-- One iteration of `run`'s `while` loop: `read_one_frame` inside
`try ... except Exception: logging.exception` — every exception,
including a failure of the stream read itself, is caught and logged and
the loop goes on. -/
def runStep (noteOf : ℚ → ℤ) (st : SessionState) : FrameInput → SessionState × List MidiEvent
  | .readError => (st, [])
  | .frame mags =>
    match read_one_frame noteOf st mags with
    | .ok r => (r.1, r.2.1)
    | .error r => (r.1, r.2.1)

/-- `MicrophoneToMidiThread.run`: the `while not self.should_die` loop,
run over the finite sequence of reads that happen before `should_die`
is observed to be set.  When the loop exits nothing further is sent. -/
def run (noteOf : ℚ → ℤ) (st : SessionState) : List FrameInput → SessionState × List MidiEvent
  | [] => (st, [])
  | i :: is =>
    let r := runStep noteOf st i
    let r2 := run noteOf r.1 is
    (r2.1, r.2 ++ r2.2)

/-- Whether the peak at index `k` passes every filter of the peak loop
(magnitude at least `minimum_magnitude`, note not above 127, reaches the
velocity computation without raising, and survives the velocity
threshold in no-velocity mode).  Survival does not depend on
`notes_on`. -/
def peakSurvives (minM maxM : ℚ) (kbv : Bool) (thr : ℤ) (noteOf : ℚ → ℤ)
    (N : ℕ) (mags : List ℚ) (k : ℕ) : Prop :=
  ¬ mags.getD k 0 < minM ∧ ¬ noteOf (fftfreq_pos N k) > 127 ∧
  ¬ maxM - minM = 0 ∧
  ¬ (kbv = false ∧ velocity_of minM maxM (mags.getD k 0) < thr)

instance (minM maxM : ℚ) (kbv : Bool) (thr : ℤ) (noteOf : ℚ → ℤ)
    (N : ℕ) (mags : List ℚ) (k : ℕ) :
    Decidable (peakSurvives minM maxM kbv thr noteOf N mags k) := by
  unfold peakSurvives; infer_instance

/-- The notes of the peak indices in `ks` that survive every filter. -/
def survNotes (noteOf : ℚ → ℤ) (N : ℕ) (mags : List ℚ) (minM maxM : ℚ)
    (kbv : Bool) (thr : ℤ) (ks : List ℕ) : List ℤ :=
  (ks.filter fun k =>
      decide (peakSurvives minM maxM kbv thr noteOf N mags k)).map
    fun k => noteOf (fftfreq_pos N k)

/-- The notes detected this frame that survive every filter, for the
session state in force during the peak loop (i.e. after the calibration
update). -/
def survivors (noteOf : ℚ → ℤ) (st : SessionState) (mags : List ℚ) : List ℤ :=
  survNotes noteOf (audio_byte_length mags) (yf_positive_magnitude mags)
    st.minimum_magnitude st.maximum_magnitude
    st.keyboard_has_velocity st.velocity_threshold
    (find_peaks (yf_positive_magnitude mags))

/-- Replace the `notes_on` field. -/
def SessionState.withNotes (st : SessionState) (l : List ℤ) : SessionState :=
  { st with notes_on := l }

/-- A constant frequency-to-note map used in concrete witnesses. -/
def noteOf0 : ℚ → ℤ := fun _ => 60

/-- A concrete session state: default bounds `(0, 127)` scaled down, no
calibration armed, velocity-capable keyboard. -/
def exampleState : SessionState :=
  ⟨0, 127, 0, 0, true, 64, []⟩

/-- A concrete session state with one note already sounding. -/
def exampleStateOn : SessionState :=
  ⟨0, 127, 0, 0, true, 64, [7]⟩

/-- A concrete session state about to learn its minimum magnitude, with
`maximum_magnitude` low enough that learning collapses the bounds. -/
def listenState : SessionState :=
  ⟨7, 5, 1, 0, true, 64, []⟩

/-- A concrete session state with a minimum-magnitude countdown armed. -/
def listenState2 : SessionState :=
  ⟨7, 100, 1, 0, true, 64, []⟩

/-- A concrete session state with coinciding calibration bounds. -/
def equalBoundsState : SessionState :=
  ⟨1, 1, 0, 0, true, 64, []⟩

/-- Another concrete session state with coinciding calibration bounds. -/
def equalBoundsState2 : SessionState :=
  ⟨2, 2, 0, 0, true, 64, []⟩

/-- A concrete session state whose minimum bound exceeds the example
frame's peak magnitude. -/
def discardState : SessionState :=
  ⟨7, 127, 0, 0, true, 64, []⟩

/-- The notes carried by the note-on messages of an event list. -/
def noteOnNotes (es : List MidiEvent) : Finset ℤ :=
  (es.filterMap fun e => match e with | .noteOn n _ => some n | .noteOff _ _ => none).toFinset

/-- The notes carried by the note-off messages of an event list. -/
def noteOffNotes (es : List MidiEvent) : Finset ℤ :=
  (es.filterMap fun e => match e with | .noteOn _ _ => none | .noteOff n _ => some n).toFinset

/-- Number of note-on messages for note `x` in an event list. -/
def onCount (x : ℤ) (es : List MidiEvent) : ℕ :=
  es.countP fun e => match e with | .noteOn n _ => n == x | .noteOff _ _ => false

/-- Number of note-off messages for note `x` in an event list. -/
def offCount (x : ℤ) (es : List MidiEvent) : ℕ :=
  es.countP fun e => match e with | .noteOn _ _ => false | .noteOff n _ => n == x

/-- An event list is balanced from active-set `A` to active-set `B`:
every note-on is for a currently inactive note (which becomes active)
and every note-off is for a currently active note (which becomes
inactive). -/
inductive Balanced : Finset ℤ → List MidiEvent → Finset ℤ → Prop
  | nil (A : Finset ℤ) : Balanced A [] A
  | onE {A B : Finset ℤ} {x v : ℤ} {es : List MidiEvent} (hx : x ∉ A)
      (h : Balanced (insert x A) es B) : Balanced A (.noteOn x v :: es) B
  | offE {A B : Finset ℤ} {x v : ℤ} {es : List MidiEvent} (hx : x ∈ A)
      (h : Balanced (A.erase x) es B) : Balanced A (.noteOff x v :: es) B

open Classical

/-- Python `round(x, 0)`: round half to even (banker's rounding); the
source wraps it in `int(...)`, which is the identity on the already
integral result. -/
noncomputable def pythonRound (x : ℝ) : ℤ :=
  if x - ⌊x⌋ = 1 / 2 then (if Even ⌊x⌋ then ⌊x⌋ else ⌊x⌋ + 1) else round x

/-- `np.log2`. -/
noncomputable def np_log2 (x : ℝ) : ℝ := Real.logb 2 x

/-- `get_midi_note_for_frequency(frequency) = int(round(69 + 12 * np.log2(frequency / 440), 0))`. -/
noncomputable def get_midi_note_for_frequency (frequency : ℝ) : ℤ :=
  pythonRound (69 + 12 * np_log2 (frequency / 440))

/-- `get_frequency_for_midi_note(note) = 440 * 2 ** ((note - 69) / 12)`. -/
noncomputable def get_frequency_for_midi_note (note : ℤ) : ℝ :=
  440 * (2 : ℝ) ^ (((note : ℝ) - 69) / 12)

/-- The frequency-to-note map the source instantiates the frame
pipeline with (bin frequencies are rationals). -/
noncomputable def pipeline_note_of (frequency : ℚ) : ℤ :=
  get_midi_note_for_frequency (frequency : ℝ)

theorem pythonRound_intCast (n : ℤ) : pythonRound (n : ℝ) = n := by
  unfold pythonRound
  rw [Int.floor_intCast]
  have h : (n : ℝ) - (n : ℝ) = 0 := by ring
  rw [h, if_neg (by norm_num), round_intCast]

theorem noteOnNotes_nil : noteOnNotes [] = ∅ := rfl

theorem noteOnNotes_append (es fs : List MidiEvent) :
    noteOnNotes (es ++ fs) = noteOnNotes es ∪ noteOnNotes fs := by
  simp [noteOnNotes, List.filterMap_append]

theorem noteOnNotes_cons_on (x v : ℤ) (es : List MidiEvent) :
    noteOnNotes (.noteOn x v :: es) = insert x (noteOnNotes es) := by
  simp [noteOnNotes]

theorem noteOffNotes_append (es fs : List MidiEvent) :
    noteOffNotes (es ++ fs) = noteOffNotes es ∪ noteOffNotes fs := by
  simp [noteOffNotes, List.filterMap_append]

theorem noteOnNotes_offList (l : List ℤ) :
    noteOnNotes (l.map fun n => .noteOff n 0) = ∅ := by
  simp [noteOnNotes, List.filterMap_map, Function.comp]

theorem noteOffNotes_offList (l : List ℤ) :
    noteOffNotes (l.map fun n => .noteOff n 0) = l.toFinset := by
  simp [noteOffNotes, List.filterMap_map, Function.comp_def]

theorem noteOnNotes_all_on (es : List MidiEvent)
    (h : ∀ e ∈ es, ∃ n v, e = MidiEvent.noteOn n v) : noteOffNotes es = ∅ := by
  have : es.filterMap (fun e => match e with
      | .noteOn _ _ => none | .noteOff n _ => some n) = [] := by
    rw [List.filterMap_eq_nil_iff]
    intro e he
    obtain ⟨n, v, rfl⟩ := h e he
    rfl
  simp [noteOffNotes, this]

theorem survNotes_nil (noteOf : ℚ → ℤ) (N : ℕ) (mags : List ℚ) (minM maxM : ℚ)
    (kbv : Bool) (thr : ℤ) :
    survNotes noteOf N mags minM maxM kbv thr [] = [] := rfl

theorem survNotes_cons_pos (noteOf : ℚ → ℤ) (N : ℕ) (mags : List ℚ) (minM maxM : ℚ)
    (kbv : Bool) (thr : ℤ) (k : ℕ) (ks : List ℕ)
    (h : peakSurvives minM maxM kbv thr noteOf N mags k) :
    survNotes noteOf N mags minM maxM kbv thr (k :: ks) =
      noteOf (fftfreq_pos N k) :: survNotes noteOf N mags minM maxM kbv thr ks := by
  simp [survNotes, h]

theorem survNotes_cons_neg (noteOf : ℚ → ℤ) (N : ℕ) (mags : List ℚ) (minM maxM : ℚ)
    (kbv : Bool) (thr : ℤ) (k : ℕ) (ks : List ℕ)
    (h : ¬ peakSurvives minM maxM kbv thr noteOf N mags k) :
    survNotes noteOf N mags minM maxM kbv thr (k :: ks) =
      survNotes noteOf N mags minM maxM kbv thr ks := by
  simp [survNotes, h]

theorem balanced_append {A B C : Finset ℤ} {es fs : List MidiEvent}
    (h1 : Balanced A es B) (h2 : Balanced B fs C) : Balanced A (es ++ fs) C := by
  induction h1 with
  | nil => simpa using h2
  | onE hx _ ih => exact Balanced.onE hx (ih h2)
  | offE hx _ ih => exact Balanced.offE hx (ih h2)

theorem onCount_cons_on_self (x v : ℤ) (es : List MidiEvent) :
    onCount x (.noteOn x v :: es) = onCount x es + 1 := by
  simp [onCount, List.countP_cons]

theorem onCount_cons_on_ne {y x : ℤ} (v : ℤ) (es : List MidiEvent) (h : y ≠ x) :
    onCount x (.noteOn y v :: es) = onCount x es := by
  simp [onCount, List.countP_cons, h]

theorem onCount_cons_off (x y v : ℤ) (es : List MidiEvent) :
    onCount x (.noteOff y v :: es) = onCount x es := by
  simp [onCount, List.countP_cons]

theorem offCount_cons_off_self (x v : ℤ) (es : List MidiEvent) :
    offCount x (.noteOff x v :: es) = offCount x es + 1 := by
  simp [offCount, List.countP_cons]

theorem offCount_cons_off_ne {y x : ℤ} (v : ℤ) (es : List MidiEvent) (h : y ≠ x) :
    offCount x (.noteOff y v :: es) = offCount x es := by
  simp [offCount, List.countP_cons, h]

theorem offCount_cons_on (x y v : ℤ) (es : List MidiEvent) :
    offCount x (.noteOn y v :: es) = offCount x es := by
  simp [offCount, List.countP_cons]

theorem balanced_count {A B : Finset ℤ} {es : List MidiEvent}
    (h : Balanced A es B) (x : ℤ) :
    onCount x es + (if x ∈ A then 1 else 0) =
      offCount x es + (if x ∈ B then 1 else 0) := by
  induction h with
  | nil => rfl
  | @onE A B y v es hy h ih =>
    rcases eq_or_ne y x with rfl | hxy
    · rw [onCount_cons_on_self, offCount_cons_on, if_neg hy,
        if_pos (Finset.mem_insert_self y A)] at *
      omega
    · rw [onCount_cons_on_ne v es hxy, offCount_cons_on]
      have hmem : (if x ∈ insert y A then 1 else 0) = (if x ∈ A then 1 else 0) := by
        simp [Finset.mem_insert, Ne.symm hxy]
      rw [hmem] at ih
      exact ih
  | @offE A B y v es hy h ih =>
    rcases eq_or_ne y x with rfl | hxy
    · rw [offCount_cons_off_self, onCount_cons_off, if_pos hy]
      have hmem : y ∉ A.erase y := Finset.not_mem_erase y A
      rw [if_neg hmem] at ih
      omega
    · rw [offCount_cons_off_ne v es hxy, onCount_cons_off]
      have hmem : (if x ∈ A.erase y then 1 else 0) = (if x ∈ A then 1 else 0) := by
        simp [Finset.mem_erase, Ne.symm hxy]
      rw [hmem] at ih
      exact ih

theorem balanced_split {A B : Finset ℤ} {es : List MidiEvent}
    (h : Balanced A es B) :
    ∀ p q : List MidiEvent, es = p ++ q → ∃ C, Balanced A p C ∧ Balanced C q B := by
  induction h with
  | nil =>
    intro p q hpq
    obtain ⟨rfl, rfl⟩ := List.append_eq_nil.mp hpq.symm
    exact ⟨_, Balanced.nil _, Balanced.nil _⟩
  | @onE A B y v es hy h ih =>
    intro p q hpq
    cases p with
    | nil =>
      refine ⟨A, Balanced.nil A, ?_⟩
      rw [List.nil_append] at hpq
      rw [← hpq]
      exact Balanced.onE hy h
    | cons e p =>
      simp only [List.cons_append, List.cons.injEq] at hpq
      obtain ⟨rfl, hpq⟩ := hpq
      obtain ⟨C, hC1, hC2⟩ := ih p q hpq
      exact ⟨C, Balanced.onE hy hC1, hC2⟩
  | @offE A B y v es hy h ih =>
    intro p q hpq
    cases p with
    | nil =>
      refine ⟨A, Balanced.nil A, ?_⟩
      rw [List.nil_append] at hpq
      rw [← hpq]
      exact Balanced.offE hy h
    | cons e p =>
      simp only [List.cons_append, List.cons.injEq] at hpq
      obtain ⟨rfl, hpq⟩ := hpq
      obtain ⟨C, hC1, hC2⟩ := ih p q hpq
      exact ⟨C, Balanced.offE hy hC1, hC2⟩

theorem balanced_offList : ∀ (l : List ℤ) (A : Finset ℤ), l.Nodup →
    (∀ x ∈ l, x ∈ A) →
    Balanced A (l.map fun n => MidiEvent.noteOff n 0) (A \ l.toFinset) := by
  intro l
  induction l with
  | nil => intro A _ _; simpa using Balanced.nil A
  | cons a l ih =>
    intro A hnd hsub
    have ha : a ∈ A := hsub a (by simp)
    have hrest : ∀ x ∈ l, x ∈ A.erase a := by
      intro x hx
      exact Finset.mem_erase.mpr ⟨fun hxa => (List.nodup_cons.mp hnd).1 (hxa ▸ hx), hsub x (by simp [hx])⟩
    have := ih (A.erase a) (List.nodup_cons.mp hnd).2 hrest
    have hset : A.erase a \ l.toFinset = A \ (a :: l).toFinset := by
      ext x
      simp only [Finset.mem_sdiff, Finset.mem_erase, List.toFinset_cons, Finset.mem_insert,
        List.mem_toFinset, ne_eq]
      tauto
    rw [hset] at this
    exact Balanced.offE ha this

theorem withNotes_self (st : SessionState) : st.withNotes st.notes_on = st := rfl

theorem withNotes_idem (st : SessionState) (a b : List ℤ) :
    (st.withNotes a).withNotes b = st.withNotes b := rfl

theorem stepPeak_branches (noteOf : ℚ → ℤ) (N : ℕ) (mags : List ℚ)
    (ls : PeakLoopState) (k : ℕ) :
    (¬ peakSurvives ls.st.minimum_magnitude ls.st.maximum_magnitude
        ls.st.keyboard_has_velocity ls.st.velocity_threshold noteOf N mags k ∧
      stepPeak noteOf N mags ls k = .ok ls) ∨
    (ls.st.maximum_magnitude - ls.st.minimum_magnitude = 0 ∧
      stepPeak noteOf N mags ls k = .error (ls.st, ls.events)) ∨
    (peakSurvives ls.st.minimum_magnitude ls.st.maximum_magnitude
        ls.st.keyboard_has_velocity ls.st.velocity_threshold noteOf N mags k ∧
      noteOf (fftfreq_pos N k) ∈ ls.st.notes_on ∧
      stepPeak noteOf N mags ls k = .ok
        ⟨ls.st, ls.events,
          if noteOf (fftfreq_pos N k) ∈ ls.notes_seen then ls.notes_seen
          else ls.notes_seen ++ [noteOf (fftfreq_pos N k)]⟩) ∨
    (peakSurvives ls.st.minimum_magnitude ls.st.maximum_magnitude
        ls.st.keyboard_has_velocity ls.st.velocity_threshold noteOf N mags k ∧
      noteOf (fftfreq_pos N k) ∉ ls.st.notes_on ∧
      stepPeak noteOf N mags ls k = .ok
        ⟨{ ls.st with notes_on := ls.st.notes_on ++ [noteOf (fftfreq_pos N k)] },
          ls.events ++ [MidiEvent.noteOn (noteOf (fftfreq_pos N k))
            (if ls.st.keyboard_has_velocity then
              velocity_of ls.st.minimum_magnitude ls.st.maximum_magnitude (mags.getD k 0)
            else 127)],
          if noteOf (fftfreq_pos N k) ∈ ls.notes_seen then ls.notes_seen
          else ls.notes_seen ++ [noteOf (fftfreq_pos N k)]⟩) := by
  by_cases h1 : mags.getD k 0 < ls.st.minimum_magnitude
  · exact Or.inl ⟨fun hs => hs.1 h1, by simp only [stepPeak]; rw [if_pos h1]⟩
  by_cases h2 : noteOf (fftfreq_pos N k) > 127
  · exact Or.inl ⟨fun hs => hs.2.1 h2, by simp only [stepPeak]; rw [if_neg h1, if_pos h2]⟩
  by_cases h3 : ls.st.maximum_magnitude - ls.st.minimum_magnitude = 0
  · exact Or.inr (Or.inl ⟨h3, by simp only [stepPeak]; rw [if_neg h1, if_neg h2, if_pos h3]⟩)
  by_cases h4 : ls.st.keyboard_has_velocity = false ∧
      velocity_of ls.st.minimum_magnitude ls.st.maximum_magnitude (mags.getD k 0) <
        ls.st.velocity_threshold
  · exact Or.inl ⟨fun hs => hs.2.2.2 h4,
      by simp only [stepPeak]; rw [if_neg h1, if_neg h2, if_neg h3, if_pos h4]⟩
  by_cases h5 : noteOf (fftfreq_pos N k) ∈ ls.st.notes_on
  · refine Or.inr (Or.inr (Or.inl ⟨⟨h1, h2, h3, h4⟩, h5, ?_⟩))
    simp only [stepPeak]
    rw [if_neg h1, if_neg h2, if_neg h3, if_neg h4, if_pos h5]
  · refine Or.inr (Or.inr (Or.inr ⟨⟨h1, h2, h3, h4⟩, h5, ?_⟩))
    simp only [stepPeak]
    rw [if_neg h1, if_neg h2, if_neg h3, if_neg h4, if_neg h5]

theorem stepPeak_ok_of_sub_ne (noteOf : ℚ → ℤ) (N : ℕ) (mags : List ℚ)
    (ls : PeakLoopState) (k : ℕ)
    (hne : ls.st.maximum_magnitude - ls.st.minimum_magnitude ≠ 0) :
    ∃ ls1, stepPeak noteOf N mags ls k = .ok ls1 ∧
      ls1.st.maximum_magnitude = ls.st.maximum_magnitude ∧
      ls1.st.minimum_magnitude = ls.st.minimum_magnitude := by
  rcases stepPeak_branches noteOf N mags ls k with ⟨_, heq⟩ | ⟨hzero, _⟩ |
    ⟨_, _, heq⟩ | ⟨_, _, heq⟩
  · exact ⟨ls, heq, rfl, rfl⟩
  · exact absurd hzero hne
  · exact ⟨_, heq, rfl, rfl⟩
  · exact ⟨_, heq, rfl, rfl⟩

theorem stepPeak_error_spec (noteOf : ℚ → ℤ) (N : ℕ) (mags : List ℚ)
    (ls : PeakLoopState) (k : ℕ) (e : SessionState × List MidiEvent)
    (h : stepPeak noteOf N mags ls k = .error e) :
    e = (ls.st, ls.events) ∧
      ls.st.maximum_magnitude - ls.st.minimum_magnitude = 0 := by
  rcases stepPeak_branches noteOf N mags ls k with ⟨_, heq⟩ | ⟨hzero, heq⟩ |
    ⟨_, _, heq⟩ | ⟨_, _, heq⟩
  · rw [heq] at h; cases h
  · rw [heq] at h; exact ⟨(Except.error.inj h).symm, hzero⟩
  · rw [heq] at h; cases h
  · rw [heq] at h; cases h

theorem stepPeak_ok_inv (noteOf : ℚ → ℤ) (N : ℕ) (mags : List ℚ)
    (ls ls1 : PeakLoopState) (k : ℕ)
    (h : stepPeak noteOf N mags ls k = .ok ls1) :
    (ls1.st.maximum_magnitude = ls.st.maximum_magnitude ∧
     ls1.st.minimum_magnitude = ls.st.minimum_magnitude) ∧
    (ls1 = ls ∨ ls.st.maximum_magnitude - ls.st.minimum_magnitude ≠ 0) := by
  rcases stepPeak_branches noteOf N mags ls k with ⟨_, heq⟩ | ⟨hzero, heq⟩ |
    ⟨hsv, _, heq⟩ | ⟨hsv, _, heq⟩
  · rw [heq] at h
    obtain rfl := Except.ok.inj h
    exact ⟨⟨rfl, rfl⟩, Or.inl rfl⟩
  · rw [heq] at h; cases h
  · rw [heq] at h
    obtain rfl := Except.ok.inj h
    exact ⟨⟨rfl, rfl⟩, Or.inr hsv.2.2.1⟩
  · rw [heq] at h
    obtain rfl := Except.ok.inj h
    exact ⟨⟨rfl, rfl⟩, Or.inr hsv.2.2.1⟩

theorem foldPeaks_no_error (noteOf : ℚ → ℤ) (N : ℕ) (mags : List ℚ) :
    ∀ (ks : List ℕ) (ls : PeakLoopState),
      ls.st.maximum_magnitude - ls.st.minimum_magnitude ≠ 0 →
      ∃ ls2, foldPeaks noteOf N mags ks ls = .ok ls2 := by
  intro ks
  induction ks with
  | nil => intro ls _; exact ⟨ls, rfl⟩
  | cons k ks ih =>
    intro ls hne
    obtain ⟨ls1, hs, hmax, hmin⟩ := stepPeak_ok_of_sub_ne noteOf N mags ls k hne
    obtain ⟨ls2, h2⟩ := ih ls1 (by rw [hmax, hmin]; exact hne)
    exact ⟨ls2, by simp only [foldPeaks, hs, h2]⟩

theorem foldPeaks_error_spec (noteOf : ℚ → ℤ) (N : ℕ) (mags : List ℚ) :
    ∀ (ks : List ℕ) (ls : PeakLoopState) (e : SessionState × List MidiEvent),
      foldPeaks noteOf N mags ks ls = .error e → e = (ls.st, ls.events) := by
  intro ks
  induction ks with
  | nil => intro ls e h; simp [foldPeaks] at h
  | cons k ks ih =>
    intro ls e h
    simp only [foldPeaks] at h
    cases hs : stepPeak noteOf N mags ls k with
    | error e1 =>
      rw [hs] at h
      dsimp only at h
      obtain rfl := Except.error.inj h
      exact (stepPeak_error_spec noteOf N mags ls k e1 hs).1
    | ok ls1 =>
      rw [hs] at h
      dsimp only at h
      obtain ⟨⟨hmax, hmin⟩, heq | hne⟩ := stepPeak_ok_inv noteOf N mags ls ls1 k hs
      · subst heq
        exact ih _ e h
      · obtain ⟨ls2, h2⟩ := foldPeaks_no_error noteOf N mags ks ls1
          (by rw [hmax, hmin]; exact hne)
        rw [h2] at h
        cases h

theorem union_insert_mem {A S : Finset ℤ} {x : ℤ} (hx : x ∈ A) :
    A ∪ insert x S = A ∪ S := by
  rw [Finset.union_insert, Finset.insert_eq_self.mpr (Finset.mem_union_left _ hx)]

theorem foldPeaks_ok_spec (noteOf : ℚ → ℤ) (N : ℕ) (mags : List ℚ) :
    ∀ (ks : List ℕ) (ls ls2 : PeakLoopState),
      foldPeaks noteOf N mags ks ls = .ok ls2 →
      ∃ new : List MidiEvent,
        ls2.events = ls.events ++ new ∧
        (∀ e ∈ new, ∃ n v, e = MidiEvent.noteOn n v) ∧
        Balanced ls.st.notes_on.toFinset new ls2.st.notes_on.toFinset ∧
        ls2.st = ls.st.withNotes ls2.st.notes_on ∧
        ls2.st.notes_on.toFinset = ls.st.notes_on.toFinset ∪
          (survNotes noteOf N mags ls.st.minimum_magnitude ls.st.maximum_magnitude
            ls.st.keyboard_has_velocity ls.st.velocity_threshold ks).toFinset ∧
        ls2.notes_seen.toFinset = ls.notes_seen.toFinset ∪
          (survNotes noteOf N mags ls.st.minimum_magnitude ls.st.maximum_magnitude
            ls.st.keyboard_has_velocity ls.st.velocity_threshold ks).toFinset ∧
        noteOnNotes new =
          (survNotes noteOf N mags ls.st.minimum_magnitude ls.st.maximum_magnitude
            ls.st.keyboard_has_velocity ls.st.velocity_threshold ks).toFinset \
            ls.st.notes_on.toFinset ∧
        (ls.st.notes_on.Nodup → ls2.st.notes_on.Nodup) := by
  intro ks
  induction ks with
  | nil =>
    intro ls ls2 h
    simp only [foldPeaks] at h
    obtain rfl := Except.ok.inj h
    refine ⟨[], by simp, by simp, Balanced.nil _, (withNotes_self ls.st).symm, ?_, ?_, ?_, id⟩
    · simp [survNotes_nil]
    · simp [survNotes_nil]
    · simp [noteOnNotes_nil, survNotes_nil]
  | cons k ks ih =>
    intro ls ls2 h
    simp only [foldPeaks] at h
    rcases stepPeak_branches noteOf N mags ls k with ⟨hns, heq⟩ | ⟨hzero, heq⟩ |
      ⟨hsv, hmem, heq⟩ | ⟨hsv, hmem, heq⟩
    · rw [heq] at h
      dsimp only at h
      rw [survNotes_cons_neg noteOf N mags _ _ _ _ k ks hns]
      exact ih ls ls2 h
    · rw [heq] at h
      dsimp only at h
      cases h
    · -- surviving peak whose note is already sounding
      rw [heq] at h
      dsimp only at h
      obtain ⟨new, H1, H2, H3, H4, H5, H6, H7, H8⟩ := ih _ ls2 h
      dsimp only at H1 H2 H3 H4 H5 H6 H7 H8
      rw [survNotes_cons_pos noteOf N mags _ _ _ _ k ks hsv]
      have hxA : noteOf (fftfreq_pos N k) ∈ ls.st.notes_on.toFinset :=
        List.mem_toFinset.mpr hmem
      have hseen : (if noteOf (fftfreq_pos N k) ∈ ls.notes_seen then ls.notes_seen
          else ls.notes_seen ++ [noteOf (fftfreq_pos N k)]).toFinset =
          insert (noteOf (fftfreq_pos N k)) ls.notes_seen.toFinset := by
        by_cases hx : noteOf (fftfreq_pos N k) ∈ ls.notes_seen
        · rw [if_pos hx]
          exact (Finset.insert_eq_self.mpr (List.mem_toFinset.mpr hx)).symm
        · rw [if_neg hx]
          ext z
          simp [or_comm]
      refine ⟨new, H1, H2, H3, H4, ?_, ?_, ?_, H8⟩
      · rw [List.toFinset_cons, union_insert_mem hxA]
        exact H5
      · rw [List.toFinset_cons, Finset.union_insert, ← Finset.insert_union, ← hseen]
        exact H6
      · rw [List.toFinset_cons, Finset.insert_sdiff_of_mem _ hxA]
        exact H7
    · -- surviving peak whose note is newly sounding: a note-on is sent
      rw [heq] at h
      dsimp only at h
      obtain ⟨new, H1, H2, H3, H4, H5, H6, H7, H8⟩ := ih _ ls2 h
      dsimp only at H1 H2 H3 H4 H5 H6 H7 H8
      rw [survNotes_cons_pos noteOf N mags _ _ _ _ k ks hsv]
      have hxF : noteOf (fftfreq_pos N k) ∉ ls.st.notes_on.toFinset := by
        simpa [List.mem_toFinset] using hmem
      have happ : (ls.st.notes_on ++ [noteOf (fftfreq_pos N k)]).toFinset =
          insert (noteOf (fftfreq_pos N k)) ls.st.notes_on.toFinset := by
        ext z
        simp [or_comm]
      have hseen : (if noteOf (fftfreq_pos N k) ∈ ls.notes_seen then ls.notes_seen
          else ls.notes_seen ++ [noteOf (fftfreq_pos N k)]).toFinset =
          insert (noteOf (fftfreq_pos N k)) ls.notes_seen.toFinset := by
        by_cases hx : noteOf (fftfreq_pos N k) ∈ ls.notes_seen
        · rw [if_pos hx]
          exact (Finset.insert_eq_self.mpr (List.mem_toFinset.mpr hx)).symm
        · rw [if_neg hx]
          ext z
          simp [or_comm]
      rw [happ] at H3 H5 H7
      refine ⟨MidiEvent.noteOn (noteOf (fftfreq_pos N k))
          (if ls.st.keyboard_has_velocity then
            velocity_of ls.st.minimum_magnitude ls.st.maximum_magnitude (mags.getD k 0)
          else 127) :: new, ?_, ?_, ?_, H4, ?_, ?_, ?_, ?_⟩
      · rw [H1, List.append_assoc, List.singleton_append]
      · intro e he
        rcases List.mem_cons.mp he with rfl | he2
        · exact ⟨_, _, rfl⟩
        · exact H2 e he2
      · exact Balanced.onE hxF H3
      · rw [List.toFinset_cons, Finset.union_insert, ← Finset.insert_union]
        exact H5
      · rw [List.toFinset_cons, Finset.union_insert, ← Finset.insert_union, ← hseen]
        exact H6
      · rw [noteOnNotes_cons_on, H7, List.toFinset_cons]
        ext z
        simp only [Finset.mem_insert, Finset.mem_sdiff]
        constructor
        · rintro (rfl | ⟨hz1, hz2⟩)
          · exact ⟨Or.inl rfl, fun hA => hxF hA⟩
          · exact ⟨Or.inr hz1, fun hA => hz2 (Or.inr hA)⟩
        · rintro ⟨rfl | hz, hzA⟩
          · exact Or.inl rfl
          · by_cases hzx : z = noteOf (fftfreq_pos N k)
            · exact Or.inl hzx
            · exact Or.inr ⟨hz, fun hc => hc.elim hzx hzA⟩
      · intro hnd
        apply H8
        rw [List.nodup_append]
        refine ⟨hnd, List.nodup_singleton _, ?_⟩
        intro a ha hb
        simp only [List.mem_singleton] at hb
        subst hb
        exact hmem ha

theorem calibrationStep_notes_on (st : SessionState) (mags : List ℚ) :
    (calibrationStep st mags).1.notes_on = st.notes_on := by
  simp only [calibrationStep]
  split_ifs <;> rfl

theorem read_one_frame_ok_spec (noteOf : ℚ → ℤ) (st0 : SessionState) (mags : List ℚ)
    (st1 : SessionState) (es : List MidiEvent) (b : Bool)
    (h : read_one_frame noteOf st0 mags = .ok (st1, es, b)) :
    ∃ (ons : List MidiEvent) (offList : List ℤ),
      es = ons ++ (offList.map fun n => MidiEvent.noteOff n 0) ∧
      (∀ e ∈ ons, ∃ n v, e = MidiEvent.noteOn n v) ∧
      noteOnNotes es =
        (survivors noteOf (calibrationStep st0 (yf_positive_magnitude mags)).1 mags).toFinset \
          st0.notes_on.toFinset ∧
      noteOffNotes es =
        st0.notes_on.toFinset \
          (survivors noteOf (calibrationStep st0 (yf_positive_magnitude mags)).1 mags).toFinset ∧
      st1.notes_on.toFinset =
        (survivors noteOf (calibrationStep st0 (yf_positive_magnitude mags)).1 mags).toFinset ∧
      st1 = (calibrationStep st0 (yf_positive_magnitude mags)).1.withNotes st1.notes_on ∧
      b = (calibrationStep st0 (yf_positive_magnitude mags)).2 ∧
      (st0.notes_on.Nodup → st1.notes_on.Nodup ∧
        Balanced st0.notes_on.toFinset es st1.notes_on.toFinset) := by
  simp only [read_one_frame] at h
  cases hf : foldPeaks noteOf (audio_byte_length mags) (yf_positive_magnitude mags)
      (find_peaks (yf_positive_magnitude mags))
      ⟨(calibrationStep st0 (yf_positive_magnitude mags)).1, [], []⟩ with
  | error e =>
    rw [hf] at h
    dsimp only at h
    cases h
  | ok ls =>
    rw [hf] at h
    dsimp only [notesOffPhase] at h
    obtain ⟨hst1, hes, hb⟩ : _ ∧ _ ∧ _ := by
      have h3 := Except.ok.inj h
      rw [Prod.mk.injEq, Prod.mk.injEq] at h3
      exact h3
    obtain ⟨new, K1, K2, K3, K4, K5, K6, K7, K8⟩ :=
      foldPeaks_ok_spec noteOf (audio_byte_length mags) (yf_positive_magnitude mags)
        (find_peaks (yf_positive_magnitude mags))
        ⟨(calibrationStep st0 (yf_positive_magnitude mags)).1, [], []⟩ ls hf
    dsimp only at K1 K2 K3 K4 K5 K6 K7 K8
    rw [List.nil_append] at K1
    rw [calibrationStep_notes_on] at K3 K5 K7 K8
    have hS : survNotes noteOf (audio_byte_length mags) (yf_positive_magnitude mags)
        (calibrationStep st0 (yf_positive_magnitude mags)).1.minimum_magnitude
        (calibrationStep st0 (yf_positive_magnitude mags)).1.maximum_magnitude
        (calibrationStep st0 (yf_positive_magnitude mags)).1.keyboard_has_velocity
        (calibrationStep st0 (yf_positive_magnitude mags)).1.velocity_threshold
        (find_peaks (yf_positive_magnitude mags)) =
        survivors noteOf (calibrationStep st0 (yf_positive_magnitude mags)).1 mags := rfl
    rw [hS] at K5 K6 K7
    rw [List.toFinset_nil, Finset.empty_union] at K6
    set A := st0.notes_on.toFinset with hA
    set S := (survivors noteOf (calibrationStep st0 (yf_positive_magnitude mags)).1 mags).toFinset
      with hSdef
    -- membership characterizations
    have hmemOn : ∀ z : ℤ, z ∈ ls.st.notes_on ↔ (z ∈ A ∨ z ∈ S) := by
      intro z
      rw [← List.mem_toFinset, K5, Finset.mem_union]
    have hmemSeen : ∀ z : ℤ, z ∈ ls.notes_seen ↔ z ∈ S := by
      intro z
      rw [← List.mem_toFinset, K6]
    have hoffs : (ls.st.notes_on.filter fun n => decide (n ∉ ls.notes_seen)).toFinset =
        A \ S := by
      ext z
      simp only [List.mem_toFinset, List.mem_filter, decide_eq_true_eq, Finset.mem_sdiff,
        hmemOn z, hmemSeen z]
      tauto
    have hkeep : (ls.st.notes_on.filter fun n => decide (n ∈ ls.notes_seen)).toFinset = S := by
      ext z
      simp only [List.mem_toFinset, List.mem_filter, decide_eq_true_eq,
        hmemOn z, hmemSeen z]
      tauto
    refine ⟨new, ls.st.notes_on.filter fun n => decide (n ∉ ls.notes_seen), ?_, K2, ?_, ?_, ?_, ?_, hb.symm, ?_⟩
    · rw [← hes, K1]
    · rw [← hes, K1, noteOnNotes_append, noteOnNotes_offList, Finset.union_empty, K7]
    · rw [← hes, K1, noteOffNotes_append, noteOnNotes_all_on new K2, noteOffNotes_offList,
        Finset.empty_union, hoffs]
    · rw [← hst1]
      exact hkeep
    · rw [← hst1]
      have hwn : ls.st.withNotes (ls.st.notes_on.filter fun n => decide (n ∈ ls.notes_seen)) =
          (calibrationStep st0 (yf_positive_magnitude mags)).1.withNotes
            (ls.st.notes_on.filter fun n => decide (n ∈ ls.notes_seen)) := by
        conv_lhs => rw [K4]
        rfl
      exact hwn
    · intro hnd0
      have hndls : ls.st.notes_on.Nodup := K8 hnd0
      have hndoffs : (ls.st.notes_on.filter fun n => decide (n ∉ ls.notes_seen)).Nodup :=
        hndls.filter _
      have hsub : ∀ x ∈ ls.st.notes_on.filter fun n => decide (n ∉ ls.notes_seen),
          x ∈ ls.st.notes_on.toFinset := by
        intro x hx
        exact List.mem_toFinset.mpr (List.mem_filter.mp hx).1
      have hbal2 := balanced_offList _ _ hndoffs hsub
      rw [hoffs] at hbal2
      constructor
      · rw [← hst1]
        exact hndls.filter _
      · rw [← hes, K1, ← hst1]
        have hfin : ls.st.notes_on.toFinset \ (A \ S) = S := by
          rw [K5]
          ext z
          simp only [Finset.mem_sdiff, Finset.mem_union, not_and, not_not]
          constructor
          · rintro ⟨hz1 | hz1, hz2⟩
            · exact hz2 hz1
            · exact hz1
          · intro hz
            exact ⟨Or.inr hz, fun _ => hz⟩
        rw [hfin] at hbal2
        rw [K5] at hbal2
        rw [hkeep]
        have K3b : Balanced A new (A ∪ S) := by
          rw [← K5]
          exact K3
        exact balanced_append K3b hbal2

theorem read_one_frame_error_spec (noteOf : ℚ → ℤ) (st0 : SessionState) (mags : List ℚ)
    (r : SessionState × List MidiEvent × Bool)
    (h : read_one_frame noteOf st0 mags = .error r) :
    r = ((calibrationStep st0 (yf_positive_magnitude mags)).1, [],
      (calibrationStep st0 (yf_positive_magnitude mags)).2) := by
  simp only [read_one_frame] at h
  cases hf : foldPeaks noteOf (audio_byte_length mags) (yf_positive_magnitude mags)
      (find_peaks (yf_positive_magnitude mags))
      ⟨(calibrationStep st0 (yf_positive_magnitude mags)).1, [], []⟩ with
  | ok ls =>
    rw [hf] at h
    dsimp only [notesOffPhase] at h
    cases h
  | error e =>
    rw [hf] at h
    dsimp only at h
    have he := foldPeaks_error_spec noteOf (audio_byte_length mags)
      (yf_positive_magnitude mags) (find_peaks (yf_positive_magnitude mags))
      ⟨(calibrationStep st0 (yf_positive_magnitude mags)).1, [], []⟩ e hf
    obtain rfl := Except.error.inj h
    rw [he]

theorem runStep_balanced (noteOf : ℚ → ℤ) (st : SessionState) (i : FrameInput)
    (hnd : st.notes_on.Nodup) :
    Balanced st.notes_on.toFinset (runStep noteOf st i).2
        (runStep noteOf st i).1.notes_on.toFinset ∧
      (runStep noteOf st i).1.notes_on.Nodup := by
  cases i with
  | readError => exact ⟨Balanced.nil _, hnd⟩
  | frame mags =>
    simp only [runStep]
    cases hr : read_one_frame noteOf st mags with
    | ok r =>
      obtain ⟨st1, es, b⟩ := r
      obtain ⟨ons, offList, _, _, _, _, _, _, _, hlast⟩ :=
        read_one_frame_ok_spec noteOf st mags st1 es b hr
      obtain ⟨hnd1, hbal⟩ := hlast hnd
      exact ⟨hbal, hnd1⟩
    | error r =>
      have he := read_one_frame_error_spec noteOf st mags r hr
      subst he
      dsimp only
      rw [calibrationStep_notes_on]
      exact ⟨Balanced.nil _, hnd⟩

theorem run_balanced (noteOf : ℚ → ℤ) :
    ∀ (inputs : List FrameInput) (st : SessionState), st.notes_on.Nodup →
      Balanced st.notes_on.toFinset (run noteOf st inputs).2
          (run noteOf st inputs).1.notes_on.toFinset ∧
        (run noteOf st inputs).1.notes_on.Nodup := by
  intro inputs
  induction inputs with
  | nil => intro st hnd; exact ⟨Balanced.nil _, hnd⟩
  | cons i is ih =>
    intro st hnd
    obtain ⟨hb1, hnd1⟩ := runStep_balanced noteOf st i hnd
    obtain ⟨hb2, hnd2⟩ := ih (runStep noteOf st i).1 hnd1
    simp only [run]
    exact ⟨balanced_append hb1 hb2, hnd2⟩

theorem pyTrunc_mono {a b : ℚ} (h : a ≤ b) : pyTrunc a ≤ pyTrunc b := by
  unfold pyTrunc
  split_ifs with h1 h2 h3
  · exact Int.ceil_mono h
  · have ha : (⌈a⌉ : ℤ) ≤ 0 := by
      have h4 := Int.ceil_mono (le_of_lt h1)
      simpa using h4
    have hb : (0 : ℤ) ≤ ⌊b⌋ := Int.floor_nonneg.mpr (not_lt.mp h2)
    omega
  · exact absurd (lt_of_le_of_lt h h3) h1
  · exact Int.floor_mono h

theorem pyTrunc_nonpos {a : ℚ} (h : a ≤ 0) : pyTrunc a ≤ 0 := by
  unfold pyTrunc
  split_ifs with h1
  · have h3 := Int.ceil_mono h
    simpa using h3
  · have h3 := Int.floor_mono h
    simpa using h3

theorem velocity_of_nonneg (minM maxM mag : ℚ) : 0 ≤ velocity_of minM maxM mag := by
  simp only [velocity_of]
  split_ifs <;> omega

theorem velocity_of_le (minM maxM mag : ℚ) : velocity_of minM maxM mag ≤ 127 := by
  simp only [velocity_of]
  split_ifs <;> omega

theorem velocity_of_eq_zero_of_raw_nonpos {minM maxM mag : ℚ}
    (h : pyTrunc (127 * (mag - minM) / (maxM - minM)) ≤ 0) :
    velocity_of minM maxM mag = 0 := by
  simp only [velocity_of]
  split_ifs <;> omega

theorem velocity_of_mono {minM maxM m1 m2 : ℚ} (hne : maxM ≠ minM)
    (hm1 : minM ≤ m1) (h12 : m1 ≤ m2) :
    velocity_of minM maxM m1 ≤ velocity_of minM maxM m2 := by
  have hd : maxM - minM ≠ 0 := sub_ne_zero.mpr hne
  rcases hd.lt_or_lt with hdneg | hdpos
  · have hz1 : velocity_of minM maxM m1 = 0 :=
      velocity_of_eq_zero_of_raw_nonpos (pyTrunc_nonpos (div_nonpos_iff.mpr
        (Or.inl ⟨mul_nonneg (by norm_num) (sub_nonneg.mpr hm1), le_of_lt hdneg⟩)))
    have hz2 : velocity_of minM maxM m2 = 0 :=
      velocity_of_eq_zero_of_raw_nonpos (pyTrunc_nonpos (div_nonpos_iff.mpr
        (Or.inl ⟨mul_nonneg (by norm_num) (sub_nonneg.mpr (hm1.trans h12)), le_of_lt hdneg⟩)))
    rw [hz1, hz2]
  · have hnum : 127 * (m1 - minM) ≤ 127 * (m2 - minM) :=
      mul_le_mul_of_nonneg_left (sub_le_sub_right h12 minM) (by norm_num)
    have hraw : 127 * (m1 - minM) / (maxM - minM) ≤ 127 * (m2 - minM) / (maxM - minM) :=
      div_le_div_of_nonneg_right hnum (le_of_lt hdpos)
    have ht := pyTrunc_mono hraw
    simp only [velocity_of]
    split_ifs <;> omega

theorem calibrationStep_spec (st : SessionState) (mags : List ℚ) :
    ((calibrationStep st mags).1.minimum_magnitude =
      if 0 < st.should_listen_for_minimum_magnitude_frames then listMax mags
      else st.minimum_magnitude) ∧
    ((calibrationStep st mags).1.should_listen_for_minimum_magnitude_frames =
      st.should_listen_for_minimum_magnitude_frames - 1) ∧
    ((calibrationStep st mags).1.maximum_magnitude =
      if 0 < st.should_listen_for_maximum_magnitude_frames then listMax mags
      else st.maximum_magnitude) ∧
    ((calibrationStep st mags).1.should_listen_for_maximum_magnitude_frames =
      st.should_listen_for_maximum_magnitude_frames - 1) ∧
    ((calibrationStep st mags).2 = true ↔
      ((calibrationStep st mags).1.minimum_magnitude ≠ st.minimum_magnitude ∨
       (calibrationStep st mags).1.maximum_magnitude ≠ st.maximum_magnitude)) := by
  by_cases h1 : 0 < st.should_listen_for_minimum_magnitude_frames <;>
  by_cases h2 : 0 < st.should_listen_for_maximum_magnitude_frames <;>
  refine ⟨?_, ?_, ?_, ?_, ?_⟩ <;>
  simp [calibrationStep, h1, h2, decide_eq_true_eq] <;>
  omega

theorem withNotes_min_listen (st : SessionState) (l : List ℤ) :
    (st.withNotes l).should_listen_for_minimum_magnitude_frames =
      st.should_listen_for_minimum_magnitude_frames := rfl

theorem withNotes_max_listen (st : SessionState) (l : List ℤ) :
    (st.withNotes l).should_listen_for_maximum_magnitude_frames =
      st.should_listen_for_maximum_magnitude_frames := rfl

theorem runStep_frame_withNotes (noteOf : ℚ → ℤ) (st : SessionState) (mags : List ℚ) :
    (runStep noteOf st (.frame mags)).1 =
      (calibrationStep st (yf_positive_magnitude mags)).1.withNotes
        (runStep noteOf st (.frame mags)).1.notes_on := by
  simp only [runStep]
  cases hr : read_one_frame noteOf st mags with
  | ok r =>
    obtain ⟨st1, es, b⟩ := r
    obtain ⟨_, _, _, _, _, _, _, h6, _, _⟩ :=
      read_one_frame_ok_spec noteOf st mags st1 es b hr
    dsimp only
    exact h6
  | error r =>
    have he := read_one_frame_error_spec noteOf st mags r hr
    subst he
    dsimp only
    exact (withNotes_self _).symm

theorem run_frames_min_countdown (noteOf : ℚ → ℤ) :
    ∀ (fs : List (List ℚ)) (st : SessionState),
      (run noteOf st (fs.map FrameInput.frame)).1.should_listen_for_minimum_magnitude_frames =
        st.should_listen_for_minimum_magnitude_frames - fs.length := by
  intro fs
  induction fs with
  | nil => intro st; simp [run]
  | cons f fs ih =>
    intro st
    simp only [List.map_cons, run, List.length_cons]
    rw [ih]
    have h1 := congrArg (fun s : SessionState =>
      s.should_listen_for_minimum_magnitude_frames) (runStep_frame_withNotes noteOf st f)
    dsimp only at h1
    rw [h1, withNotes_min_listen, (calibrationStep_spec st (yf_positive_magnitude f)).2.1]
    omega

theorem run_frames_max_countdown (noteOf : ℚ → ℤ) :
    ∀ (fs : List (List ℚ)) (st : SessionState),
      (run noteOf st (fs.map FrameInput.frame)).1.should_listen_for_maximum_magnitude_frames =
        st.should_listen_for_maximum_magnitude_frames - fs.length := by
  intro fs
  induction fs with
  | nil => intro st; simp [run]
  | cons f fs ih =>
    intro st
    simp only [List.map_cons, run, List.length_cons]
    rw [ih]
    have h1 := congrArg (fun s : SessionState =>
      s.should_listen_for_maximum_magnitude_frames) (runStep_frame_withNotes noteOf st f)
    dsimp only at h1
    rw [h1, withNotes_max_listen, (calibrationStep_spec st (yf_positive_magnitude f)).2.2.2.1]
    omega

/-- C9: for every integer note `n` in `[0, 127]`, mapping `n` to a
frequency via `get_frequency_for_midi_note` and back via
`get_midi_note_for_frequency` yields `n` again (round-trip identity
within the rounding of the note map). -/
theorem claim_c9_pitch_round_trip (n : ℤ) (h0 : 0 ≤ n) (h127 : n ≤ 127) :
    get_midi_note_for_frequency (get_frequency_for_midi_note n) = n := by
  unfold get_midi_note_for_frequency get_frequency_for_midi_note np_log2
  have h440 : (440 : ℝ) ≠ 0 := by norm_num
  rw [mul_div_cancel_left₀ _ h440,
    Real.logb_rpow (by norm_num : (0:ℝ) < 2) (by norm_num : (2:ℝ) ≠ 1)]
  have h : (69 : ℝ) + 12 * (((n : ℝ) - 69) / 12) = ((n : ℤ) : ℝ) := by
    field_simp
  rw [h, pythonRound_intCast]

/-- Witness for C9 at `n = 69` (440 Hz maps back to MIDI note 69). -/
theorem claim_c9_pitch_round_trip_witness :
    (0 : ℤ) ≤ 69 ∧ (69 : ℤ) ≤ 127 ∧
      get_midi_note_for_frequency (get_frequency_for_midi_note 69) = 69 :=
  ⟨by norm_num, by norm_num,
    claim_c9_pitch_round_trip 69 (by norm_num) (by norm_num)⟩

/-- C1 (code bug): the source intends to keep the positive-frequency
half of the spectrum, but `N = len(audio_data)` is the *byte* length
(2 bytes per sample), so for the fixed 1024-sample chunk the slice
`[:N // 2]` keeps all 1024 magnitude bins instead of 512, and
`fftfreq(N, 1/rate)` labels bin `k` with `k * 44100 / 2048` — half the
claimed bin frequency `k * sampleRate / frameLength`.  At bin 512 the
code assigns 11025 Hz where the claim's formula gives 22050 Hz. -/
theorem claim_c1_spectral_retention (mags : List ℚ)
    (h : mags.length = PYAUDIO_CHUNK_SIZE) :
    (yf_positive_magnitude mags).length = 1024 ∧
    (yf_positive_magnitude mags).length ≠ 512 ∧
    xf_positive mags 512 = 11025 ∧
    (512 : ℚ) * PYAUDIO_SAMPLE_RATE / ((PYAUDIO_CHUNK_SIZE : ℕ) : ℚ) = 22050 ∧
    xf_positive mags 512 ≠ (512 : ℚ) * PYAUDIO_SAMPLE_RATE / ((PYAUDIO_CHUNK_SIZE : ℕ) : ℚ) := by
  have h1024 : mags.length = 1024 := h
  simp only [yf_positive_magnitude, xf_positive, audio_byte_length, fftfreq_pos,
    PYAUDIO_SAMPLE_RATE, h1024, List.length_take]
  norm_num [PYAUDIO_CHUNK_SIZE]

/-- Witness for C1 at the all-zero 1024-sample frame. -/
theorem claim_c1_spectral_retention_witness :
    (List.replicate 1024 (0 : ℚ)).length = PYAUDIO_CHUNK_SIZE ∧
      (yf_positive_magnitude (List.replicate 1024 (0 : ℚ))).length = 1024 ∧
      (yf_positive_magnitude (List.replicate 1024 (0 : ℚ))).length ≠ 512 ∧
      xf_positive (List.replicate 1024 (0 : ℚ)) 512 = 11025 ∧
      (512 : ℚ) * PYAUDIO_SAMPLE_RATE / ((PYAUDIO_CHUNK_SIZE : ℕ) : ℚ) = 22050 ∧
      xf_positive (List.replicate 1024 (0 : ℚ)) 512 ≠
        (512 : ℚ) * PYAUDIO_SAMPLE_RATE / ((PYAUDIO_CHUNK_SIZE : ℕ) : ℚ) :=
  have hlen : (List.replicate 1024 (0 : ℚ)).length = PYAUDIO_CHUNK_SIZE := by
    rw [List.length_replicate]
    rfl
  ⟨hlen, claim_c1_spectral_retention (List.replicate 1024 (0 : ℚ)) hlen⟩

/-- C3: for a frame that completes without error, with `S` the set of
notes detected and surviving all filters (for the post-calibration
state) and `A` the active set before the frame, the note-on events
carry exactly `S \\ A`, the note-off events exactly `A \\ S`, and the
active set afterwards is exactly `S`. -/
theorem claim_c3_note_state_diff (noteOf : ℚ → ℤ) (st0 st1 : SessionState)
    (mags : List ℚ) (es : List MidiEvent) (b : Bool)
    (h : read_one_frame noteOf st0 mags = .ok (st1, es, b)) :
    noteOnNotes es =
      (survivors noteOf (calibrationStep st0 (yf_positive_magnitude mags)).1 mags).toFinset \
        st0.notes_on.toFinset ∧
    noteOffNotes es =
      st0.notes_on.toFinset \
        (survivors noteOf (calibrationStep st0 (yf_positive_magnitude mags)).1 mags).toFinset ∧
    st1.notes_on.toFinset =
      (survivors noteOf (calibrationStep st0 (yf_positive_magnitude mags)).1 mags).toFinset := by
  obtain ⟨_, _, _, _, e3, e4, e5, _, _, _⟩ :=
    read_one_frame_ok_spec noteOf st0 mags st1 es b h
  exact ⟨e3, e4, e5⟩

/-- C10: for a frame that completes without error, all of its note-on
messages are emitted before any of its note-off messages, and every
note-off message carries velocity 0. -/
theorem claim_c10_event_order (noteOf : ℚ → ℤ) (st0 st1 : SessionState)
    (mags : List ℚ) (es : List MidiEvent) (b : Bool)
    (h : read_one_frame noteOf st0 mags = .ok (st1, es, b)) :
    ∃ ons offs : List MidiEvent,
      es = ons ++ offs ∧
      (∀ e ∈ ons, ∃ n v, e = MidiEvent.noteOn n v) ∧
      (∀ e ∈ offs, ∃ n, e = MidiEvent.noteOff n 0) := by
  obtain ⟨ons, offList, e1, e2, _⟩ := read_one_frame_ok_spec noteOf st0 mags st1 es b h
  refine ⟨ons, offList.map fun n => MidiEvent.noteOff n 0, e1, e2, ?_⟩
  intro e he
  obtain ⟨n, _, rfl⟩ := List.mem_map.mp he
  exact ⟨n, rfl⟩

/-- C2 (amended): over any run starting from an empty active set, for
every prefix of the emitted event stream and every note `x` the note-on
count exceeds the note-off count by at most one (and never falls below
it); but when the loop stops, no drain happens: the final counts differ
by exactly one for every note still in the active set (`run` emits
nothing after its last input). -/
theorem claim_c2_amended_on_off_balance (noteOf : ℚ → ℤ) (st0 : SessionState)
    (inputs : List FrameInput) (h0 : st0.notes_on = []) (x : ℤ)
    (p q : List MidiEvent) (hsplit : (run noteOf st0 inputs).2 = p ++ q) :
    (offCount x p ≤ onCount x p ∧ onCount x p ≤ offCount x p + 1) ∧
    onCount x (run noteOf st0 inputs).2 =
      offCount x (run noteOf st0 inputs).2 +
        (if x ∈ (run noteOf st0 inputs).1.notes_on then 1 else 0) := by
  have hnd : st0.notes_on.Nodup := by rw [h0]; exact List.nodup_nil
  obtain ⟨hbal, _⟩ := run_balanced noteOf inputs st0 hnd
  have hA : st0.notes_on.toFinset = ∅ := by rw [h0]; rfl
  rw [hA] at hbal
  constructor
  · obtain ⟨C, hC1, _⟩ := balanced_split hbal p q hsplit
    have hc := balanced_count hC1 x
    rw [if_neg (Finset.not_mem_empty x)] at hc
    by_cases hx : x ∈ C
    · rw [if_pos hx] at hc
      omega
    · rw [if_neg hx] at hc
      omega
  · have hc := balanced_count hbal x
    rw [if_neg (Finset.not_mem_empty x)] at hc
    have hiff : (if x ∈ (run noteOf st0 inputs).1.notes_on then 1 else 0) =
        (if x ∈ (run noteOf st0 inputs).1.notes_on.toFinset then 1 else 0) := by
      by_cases hx : x ∈ (run noteOf st0 inputs).1.notes_on
      · rw [if_pos hx, if_pos (List.mem_toFinset.mpr hx)]
      · rw [if_neg hx, if_neg (fun hc2 => hx (List.mem_toFinset.mp hc2))]
    rw [hiff]
    omega

/-- C4 (amended): a per-frame error is caught and logged and the loop
continues, the active note set is unchanged by the failed frame and no
MIDI message of the failed frame is emitted; but the frame's partial
effects are *not* all discarded: the calibration update made earlier in
the frame persists in the session state. -/
theorem claim_c4_amended_frame_error (noteOf : ℚ → ℤ) (st : SessionState)
    (mags : List ℚ) (r : SessionState × List MidiEvent × Bool)
    (rest : List FrameInput)
    (h : read_one_frame noteOf st mags = .error r) :
    r.1 = (calibrationStep st (yf_positive_magnitude mags)).1 ∧
    r.2.1 = [] ∧
    r.1.notes_on = st.notes_on ∧
    run noteOf st (FrameInput.frame mags :: rest) =
      run noteOf (calibrationStep st (yf_positive_magnitude mags)).1 rest := by
  have he := read_one_frame_error_spec noteOf st mags r h
  subst he
  refine ⟨rfl, rfl, calibrationStep_notes_on st _, ?_⟩
  simp only [run, runStep, h]
  rw [List.nil_append]

/-- C5 (amended): an error raised while acquiring a frame is caught by
the same `except` handler as any per-frame error; the loop's state is
unchanged, nothing is emitted for that iteration, and the loop simply
continues with the remaining frames — it does not terminate or
transition to a stopped state. -/
theorem claim_c5_amended_read_error (noteOf : ℚ → ℤ) (st : SessionState)
    (rest : List FrameInput) :
    run noteOf st (FrameInput.readError :: rest) = run noteOf st rest := by
  simp only [run, runStep]
  rw [List.nil_append]

/-- C6 (amended): while a calibration countdown is positive, each frame
sets the corresponding bound to the maximum over *all* retained
magnitude bins of the frame (`np.max` of the spectrum — not the maximum
over the detected peaks, and not 0 when there are no peaks) and
decrements the countdown by one, so after `durationFrames` frames the
countdown is 0; a frame seen with countdown 0 leaves the bound
unchanged; and the change notification fires iff either bound's value
differs from its value before the frame. -/
theorem claim_c6_amended_calibration (noteOf : ℚ → ℤ) (st : SessionState)
    (mags : List ℚ) (fs : List (List ℚ)) :
    ((calibrationStep st mags).1.minimum_magnitude =
      if 0 < st.should_listen_for_minimum_magnitude_frames then listMax mags
      else st.minimum_magnitude) ∧
    ((calibrationStep st mags).1.should_listen_for_minimum_magnitude_frames =
      st.should_listen_for_minimum_magnitude_frames - 1) ∧
    ((calibrationStep st mags).1.maximum_magnitude =
      if 0 < st.should_listen_for_maximum_magnitude_frames then listMax mags
      else st.maximum_magnitude) ∧
    ((calibrationStep st mags).1.should_listen_for_maximum_magnitude_frames =
      st.should_listen_for_maximum_magnitude_frames - 1) ∧
    ((calibrationStep st mags).2 = true ↔
      ((calibrationStep st mags).1.minimum_magnitude ≠ st.minimum_magnitude ∨
       (calibrationStep st mags).1.maximum_magnitude ≠ st.maximum_magnitude)) ∧
    ((run noteOf st (fs.map FrameInput.frame)).1.should_listen_for_minimum_magnitude_frames =
      st.should_listen_for_minimum_magnitude_frames - fs.length) ∧
    ((run noteOf st (fs.map FrameInput.frame)).1.should_listen_for_maximum_magnitude_frames =
      st.should_listen_for_maximum_magnitude_frames - fs.length) := by
  obtain ⟨c1, c2, c3, c4, c5⟩ := calibrationStep_spec st mags
  exact ⟨c1, c2, c3, c4, c5, run_frames_min_countdown noteOf fs st,
    run_frames_max_countdown noteOf fs st⟩

/-- C7 (amended): when the calibration bounds coincide, a detected peak
with magnitude at least the minimum bound and note not above 127 makes
the velocity computation raise (the `int(...)` of the `inf`/`nan`
quotient), aborting the frame with the session object and the messages
sent so far — no defined in-range velocity is produced. -/
theorem claim_c7_amended_equal_bounds_raise (noteOf : ℚ → ℤ) (N : ℕ)
    (mags : List ℚ) (ls : PeakLoopState) (k : ℕ)
    (hmag : ¬ mags.getD k 0 < ls.st.minimum_magnitude)
    (hnote : ¬ noteOf (fftfreq_pos N k) > 127)
    (heq : ls.st.maximum_magnitude = ls.st.minimum_magnitude) :
    stepPeak noteOf N mags ls k = .error (ls.st, ls.events) := by
  simp only [stepPeak]
  rw [if_neg hmag, if_neg hnote, if_pos (by rw [heq, sub_self])]

/-- C8 (amended): for fixed calibration bounds with
`maximum ≠ minimum`, the derived velocity is monotone non-decreasing in
the magnitude on magnitudes at least the minimum bound and always lies
in `[0, 127]`; and a peak whose magnitude is strictly below the minimum
bound is discarded — the peak-loop step leaves state, events and seen
set untouched.  (When the bounds coincide the computation instead
raises, see C7.) -/
theorem claim_c8_amended_velocity (minM maxM m1 m2 : ℚ) (noteOf : ℚ → ℤ)
    (N : ℕ) (mags : List ℚ) (ls : PeakLoopState) (k : ℕ)
    (hne : maxM ≠ minM) (hm1 : minM ≤ m1) (h12 : m1 ≤ m2)
    (hlow : mags.getD k 0 < ls.st.minimum_magnitude) :
    velocity_of minM maxM m1 ≤ velocity_of minM maxM m2 ∧
    (0 ≤ velocity_of minM maxM m1 ∧ velocity_of minM maxM m1 ≤ 127) ∧
    (0 ≤ velocity_of minM maxM m2 ∧ velocity_of minM maxM m2 ≤ 127) ∧
    stepPeak noteOf N mags ls k = .ok ls := by
  refine ⟨velocity_of_mono hne hm1 h12,
    ⟨velocity_of_nonneg _ _ _, velocity_of_le _ _ _⟩,
    ⟨velocity_of_nonneg _ _ _, velocity_of_le _ _ _⟩, ?_⟩
  simp only [stepPeak]
  rw [if_pos hlow]

theorem eval_frame_example :
    read_one_frame noteOf0 exampleState [0, 5, 0] =
      .ok (⟨0, 127, 0, 0, true, 64, [60]⟩, [.noteOn 60 5], false) := by
  norm_num [read_one_frame, audio_byte_length, yf_positive_magnitude, calibrationStep,
    find_peaks, isPlateauPeak, List.range_succ, foldPeaks, stepPeak, fftfreq_pos,
    velocity_of, pyTrunc, notesOffPhase, exampleState, noteOf0, PYAUDIO_SAMPLE_RATE, listMax]

theorem eval_run_example :
    run noteOf0 exampleState [FrameInput.frame [0, 5, 0]] =
      (⟨0, 127, 0, 0, true, 64, [60]⟩, [.noteOn 60 5]) := by
  simp [run, runStep, eval_frame_example]

theorem eval_run_example_after_read_error :
    run noteOf0 exampleState [FrameInput.readError, FrameInput.frame [0, 5, 0]] =
      (⟨0, 127, 0, 0, true, 64, [60]⟩, [.noteOn 60 5]) := by
  simp [run, runStep, eval_frame_example]

theorem eval_frame_example_on :
    read_one_frame noteOf0 exampleStateOn [0, 5, 0] =
      .ok (⟨0, 127, 0, 0, true, 64, [60]⟩, [.noteOn 60 5, .noteOff 7 0], false) := by
  norm_num [read_one_frame, audio_byte_length, yf_positive_magnitude, calibrationStep,
    find_peaks, isPlateauPeak, List.range_succ, foldPeaks, stepPeak, fftfreq_pos,
    velocity_of, pyTrunc, notesOffPhase, exampleStateOn, noteOf0, PYAUDIO_SAMPLE_RATE, listMax]

theorem eval_frame_listen :
    read_one_frame noteOf0 listenState [0, 5, 0] =
      .error (⟨5, 5, 0, 0, true, 64, []⟩, [], true) := by
  norm_num [read_one_frame, audio_byte_length, yf_positive_magnitude, calibrationStep,
    find_peaks, isPlateauPeak, List.range_succ, foldPeaks, stepPeak, fftfreq_pos,
    velocity_of, pyTrunc, notesOffPhase, listenState, noteOf0, PYAUDIO_SAMPLE_RATE, listMax]

theorem eval_frame_equal_bounds :
    read_one_frame noteOf0 equalBoundsState [0, 5, 0] =
      .error (equalBoundsState, [], false) := by
  norm_num [read_one_frame, audio_byte_length, yf_positive_magnitude, calibrationStep,
    find_peaks, isPlateauPeak, List.range_succ, foldPeaks, stepPeak, fftfreq_pos,
    velocity_of, pyTrunc, notesOffPhase, equalBoundsState, noteOf0, PYAUDIO_SAMPLE_RATE,
    listMax]

theorem eval_step_equal_bounds :
    stepPeak noteOf0 6 [0, 7, 0] ⟨equalBoundsState2, [], []⟩ 1 =
      .error (equalBoundsState2, []) := by
  norm_num [stepPeak, fftfreq_pos, velocity_of, pyTrunc, equalBoundsState2, noteOf0,
    PYAUDIO_SAMPLE_RATE]

theorem eval_calibration_no_peaks :
    calibrationStep listenState2 [4, 0, 0, 0] = (⟨4, 100, 0, 0, true, 64, []⟩, true) ∧
      find_peaks [4, 0, 0, 0] = [] := by
  constructor
  · norm_num [calibrationStep, listenState2, listMax]
  · norm_num [find_peaks, isPlateauPeak, List.range_succ]

/-- Counterexample to C2 as stated: a run that sees note 60 once and
then stops leaves note 60 in the active set with one more note-on than
note-off — no shutdown drain is performed. -/
theorem claim_c2_counterexample_no_drain :
    run noteOf0 exampleState [FrameInput.frame [0, 5, 0]] =
      (⟨0, 127, 0, 0, true, 64, [60]⟩, [.noteOn 60 5]) ∧
    onCount 60 [.noteOn 60 5] = 1 ∧
    offCount 60 [.noteOn 60 5] = 0 ∧
    (⟨0, 127, 0, 0, true, 64, [60]⟩ : SessionState).notes_on ≠ [] := by
  refine ⟨eval_run_example, ?_, ?_, ?_⟩ <;> simp [onCount, offCount]

/-- Witness for the amended C2 at a concrete run. -/
theorem claim_c2_amended_on_off_balance_witness :
    exampleState.notes_on = [] ∧
    (run noteOf0 exampleState [FrameInput.frame [0, 5, 0]]).2 =
      [MidiEvent.noteOn 60 5] ++ [] ∧
    ((offCount 60 [MidiEvent.noteOn 60 5] ≤ onCount 60 [MidiEvent.noteOn 60 5] ∧
      onCount 60 [MidiEvent.noteOn 60 5] ≤ offCount 60 [MidiEvent.noteOn 60 5] + 1) ∧
    onCount 60 (run noteOf0 exampleState [FrameInput.frame [0, 5, 0]]).2 =
      offCount 60 (run noteOf0 exampleState [FrameInput.frame [0, 5, 0]]).2 +
        (if 60 ∈ (run noteOf0 exampleState [FrameInput.frame [0, 5, 0]]).1.notes_on
          then 1 else 0)) :=
  have hsplit : (run noteOf0 exampleState [FrameInput.frame [0, 5, 0]]).2 =
      [MidiEvent.noteOn 60 5] ++ [] := by
    simp [eval_run_example]
  ⟨rfl, hsplit, claim_c2_amended_on_off_balance noteOf0 exampleState
    [FrameInput.frame [0, 5, 0]] rfl 60 [MidiEvent.noteOn 60 5] [] hsplit⟩

/-- Witness for C3 at a concrete frame: note 60 is detected, fires one
note-on, and becomes the active set. -/
theorem claim_c3_note_state_diff_witness :
    read_one_frame noteOf0 exampleState [0, 5, 0] =
      .ok (⟨0, 127, 0, 0, true, 64, [60]⟩, [MidiEvent.noteOn 60 5], false) ∧
    (noteOnNotes [MidiEvent.noteOn 60 5] =
      (survivors noteOf0 (calibrationStep exampleState
        (yf_positive_magnitude [0, 5, 0])).1 [0, 5, 0]).toFinset \
        exampleState.notes_on.toFinset ∧
    noteOffNotes [MidiEvent.noteOn 60 5] =
      exampleState.notes_on.toFinset \
        (survivors noteOf0 (calibrationStep exampleState
          (yf_positive_magnitude [0, 5, 0])).1 [0, 5, 0]).toFinset ∧
    (⟨0, 127, 0, 0, true, 64, [60]⟩ : SessionState).notes_on.toFinset =
      (survivors noteOf0 (calibrationStep exampleState
        (yf_positive_magnitude [0, 5, 0])).1 [0, 5, 0]).toFinset) :=
  ⟨eval_frame_example, claim_c3_note_state_diff noteOf0 exampleState
    ⟨0, 127, 0, 0, true, 64, [60]⟩ [0, 5, 0] [MidiEvent.noteOn 60 5] false
    eval_frame_example⟩

/-- Witness for C10 at a concrete frame emitting one note-on and one
note-off. -/
theorem claim_c10_event_order_witness :
    read_one_frame noteOf0 exampleStateOn [0, 5, 0] =
      .ok (⟨0, 127, 0, 0, true, 64, [60]⟩, [MidiEvent.noteOn 60 5, MidiEvent.noteOff 7 0],
        false) ∧
    (∃ ons offs : List MidiEvent,
      [MidiEvent.noteOn 60 5, MidiEvent.noteOff 7 0] = ons ++ offs ∧
      (∀ e ∈ ons, ∃ n v, e = MidiEvent.noteOn n v) ∧
      (∀ e ∈ offs, ∃ n, e = MidiEvent.noteOff n 0)) :=
  ⟨eval_frame_example_on, claim_c10_event_order noteOf0 exampleStateOn
    ⟨0, 127, 0, 0, true, 64, [60]⟩ [0, 5, 0]
    [MidiEvent.noteOn 60 5, MidiEvent.noteOff 7 0] false eval_frame_example_on⟩

/-- Counterexample to C4 as stated: a frame whose processing raises
(equal bounds reached after the calibration update) still changes the
session state — the learned `minimum_magnitude` persists, so the failed
frame's partial effects are not discarded. -/
theorem claim_c4_counterexample_persisting_effects :
    runStep noteOf0 listenState (FrameInput.frame [0, 5, 0]) =
      (⟨5, 5, 0, 0, true, 64, []⟩, []) ∧
    (⟨5, 5, 0, 0, true, 64, []⟩ : SessionState).minimum_magnitude ≠
      listenState.minimum_magnitude := by
  constructor
  · simp [runStep, eval_frame_listen]
  · norm_num [listenState]

/-- Witness for the amended C4 at a concrete erroring frame. -/
theorem claim_c4_amended_frame_error_witness :
    read_one_frame noteOf0 listenState [0, 5, 0] =
      .error (⟨5, 5, 0, 0, true, 64, []⟩, [], true) ∧
    ((⟨5, 5, 0, 0, true, 64, []⟩ : SessionState) =
      (calibrationStep listenState (yf_positive_magnitude [0, 5, 0])).1 ∧
    ([] : List MidiEvent) = [] ∧
    (⟨5, 5, 0, 0, true, 64, []⟩ : SessionState).notes_on = listenState.notes_on ∧
    run noteOf0 listenState (FrameInput.frame [0, 5, 0] :: []) =
      run noteOf0 (calibrationStep listenState (yf_positive_magnitude [0, 5, 0])).1 []) :=
  ⟨eval_frame_listen, claim_c4_amended_frame_error noteOf0 listenState [0, 5, 0]
    (⟨5, 5, 0, 0, true, 64, []⟩, [], true) [] eval_frame_listen⟩

/-- Counterexample to C5 as stated: after an error acquiring a frame
the loop keeps going and still emits events for the following frame,
rather than terminating. -/
theorem claim_c5_counterexample_loop_survives :
    (run noteOf0 exampleState [FrameInput.readError, FrameInput.frame [0, 5, 0]]).2 =
      [MidiEvent.noteOn 60 5] ∧
    ([MidiEvent.noteOn 60 5] : List MidiEvent) ≠ [] := by
  constructor
  · rw [eval_run_example_after_read_error]
  · simp

/-- Counterexample to C6 as stated: during an armed minimum countdown,
a frame whose spectrum `[4, 0, 0, 0]` has no detected peaks sets the
bound to `np.max` of the spectrum (4), not to the claimed maximum over
detected peaks (0 for no peaks). -/
theorem claim_c6_counterexample_no_peaks :
    calibrationStep listenState2 [4, 0, 0, 0] = (⟨4, 100, 0, 0, true, 64, []⟩, true) ∧
    find_peaks [4, 0, 0, 0] = [] ∧
    (⟨4, 100, 0, 0, true, 64, []⟩ : SessionState).minimum_magnitude ≠ 0 := by
  refine ⟨eval_calibration_no_peaks.1, eval_calibration_no_peaks.2, by norm_num⟩

/-- Counterexample to C7 as stated: with both bounds at 1, the frame
with a peak of magnitude 5 raises out of the velocity computation
instead of producing a defined in-range velocity. -/
theorem claim_c7_counterexample_raise :
    read_one_frame noteOf0 equalBoundsState [0, 5, 0] =
      .error (equalBoundsState, [], false) ∧
    equalBoundsState.maximum_magnitude = equalBoundsState.minimum_magnitude := by
  exact ⟨eval_frame_equal_bounds, rfl⟩

/-- Witness for the amended C7 at a concrete peak. -/
theorem claim_c7_amended_equal_bounds_raise_witness :
    (¬ ([0, 5, 0] : List ℚ).getD 1 0 <
      (⟨equalBoundsState, [], []⟩ : PeakLoopState).st.minimum_magnitude) ∧
    (¬ noteOf0 (fftfreq_pos 6 1) > 127) ∧
    (⟨equalBoundsState, [], []⟩ : PeakLoopState).st.maximum_magnitude =
      (⟨equalBoundsState, [], []⟩ : PeakLoopState).st.minimum_magnitude ∧
    stepPeak noteOf0 6 [0, 5, 0] ⟨equalBoundsState, [], []⟩ 1 =
      .error ((⟨equalBoundsState, [], []⟩ : PeakLoopState).st,
        (⟨equalBoundsState, [], []⟩ : PeakLoopState).events) :=
  have h1 : ¬ ([0, 5, 0] : List ℚ).getD 1 0 <
      (⟨equalBoundsState, [], []⟩ : PeakLoopState).st.minimum_magnitude := by
    norm_num [equalBoundsState]
  have h2 : ¬ noteOf0 (fftfreq_pos 6 1) > 127 := by norm_num [noteOf0]
  have h3 : (⟨equalBoundsState, [], []⟩ : PeakLoopState).st.maximum_magnitude =
      (⟨equalBoundsState, [], []⟩ : PeakLoopState).st.minimum_magnitude := rfl
  ⟨h1, h2, h3, claim_c7_amended_equal_bounds_raise noteOf0 6 [0, 5, 0]
    ⟨equalBoundsState, [], []⟩ 1 h1 h2 h3⟩

/-- Counterexample to C8 as stated: with both bounds at 2, a peak of
magnitude 7 (not below the minimum bound) yields no velocity in
`[0, 127]` at all — the computation raises. -/
theorem claim_c8_counterexample_equal_bounds :
    stepPeak noteOf0 6 [0, 7, 0] ⟨equalBoundsState2, [], []⟩ 1 =
      .error (equalBoundsState2, []) ∧
    ¬ ([0, 7, 0] : List ℚ).getD 1 0 < equalBoundsState2.minimum_magnitude := by
  refine ⟨eval_step_equal_bounds, by norm_num [equalBoundsState2]⟩

/-- Witness for the amended C8 at concrete bounds `(0, 127)` and
magnitudes 5 and 10, plus a concrete discarded peak. -/
theorem claim_c8_amended_velocity_witness :
    ((127 : ℚ) ≠ 0 ∧ (0 : ℚ) ≤ 5 ∧ (5 : ℚ) ≤ 10 ∧
      ([0, 5, 0] : List ℚ).getD 1 0 <
        (⟨discardState, [], []⟩ : PeakLoopState).st.minimum_magnitude) ∧
    (velocity_of 0 127 5 ≤ velocity_of 0 127 10 ∧
    (0 ≤ velocity_of 0 127 5 ∧ velocity_of 0 127 5 ≤ 127) ∧
    (0 ≤ velocity_of 0 127 10 ∧ velocity_of 0 127 10 ≤ 127) ∧
    stepPeak noteOf0 6 [0, 5, 0] ⟨discardState, [], []⟩ 1 =
      .ok ⟨discardState, [], []⟩) :=
  have h1 : (127 : ℚ) ≠ 0 := by norm_num
  have h2 : (0 : ℚ) ≤ 5 := by norm_num
  have h3 : (5 : ℚ) ≤ 10 := by norm_num
  have h4 : ([0, 5, 0] : List ℚ).getD 1 0 <
      (⟨discardState, [], []⟩ : PeakLoopState).st.minimum_magnitude := by
    norm_num [discardState]
  ⟨⟨h1, h2, h3, h4⟩, claim_c8_amended_velocity 0 127 5 10 noteOf0 6 [0, 5, 0]
    ⟨discardState, [], []⟩ 1 h1 h2 h3 h4⟩

end Midiphone
